import Mathlib

/-
Shallow embedding of django-seeker's indexing pipeline
(src/seeker/mapping.py and src/seeker/registry.py).

Python objects reachable by `follow` are modelled by `PyVal`:
a value is None, a scalar (string / int / bool), a list, a Django model
instance (with a canonical string representation `six.text_type(obj)`,
a primary key `pk`, named attributes, and `get_<name>_display` methods),
or a Django `Manager` (a collection of related model instances, in its
natural iteration order, as returned by `obj.all()`).
-/

namespace Seeker

inductive PyVal where
  | none : PyVal
  | vstr : String → PyVal
  | vint : Int → PyVal
  | vbool : Bool → PyVal
  | list : List PyVal → PyVal
  | model : String → Int → List (String × PyVal) → List (String × String) → PyVal
  | manager : List PyVal → PyVal
deriving BEq

/-- The canonical string representation of a model (six.text_type(obj)). -/
def strRep : PyVal → String
  | .model s _ _ _ => s
  | _ => ""

/-- isinstance(obj, models.Model) -/
def isModel : PyVal → Bool
  | .model _ _ _ _ => true
  | _ => false

/-- isinstance(obj, models.Manager) -/
def isManager : PyVal → Bool
  | .manager _ => true
  | _ => false

/-- The `get_<part>_display` method table of a model: `getDisplay obj part`
is `some d` when `hasattr(obj, 'get_<part>_display')` holds and the method
returns `d`, and `none` otherwise (non-models have no such methods). -/
def getDisplay (obj : PyVal) (part : String) : Option String :=
  match obj with
  | .model _ _ _ displays => displays.lookup part
  | _ => Option.none

/-- `getattr(obj, part, None)`: named-attribute access with a `None`
default.  Only model instances carry named attributes in this model;
on any other value the default `None` is returned. -/
def getattr (obj : PyVal) (part : String) : PyVal :=
  match obj with
  | .model _ _ attrs _ =>
    match attrs.lookup part with
    | some v => v
    | Option.none => PyVal.none
  | _ => PyVal.none

/-- The conversion applied by `follow` after the loop over the path parts:
a Django model becomes its string representation (six.text_type), anything
else is returned unconverted (mapping.py lines 24-27). -/
def followFinish (obj : PyVal) : PyVal :=
  match obj with
  | .model s _ _ _ => .vstr s
  | v => v

/-- The loop of `follow` (mapping.py lines 12-27), with the path already
split into parts.  Each loop iteration is one step of the recursion: check
for a `get_<part>_display` method first and stop there if present; else
`obj = getattr(obj, part, None)`; managers branch and recurse over all
contained objects with the remainder of the path (the Python code joins
`parts[idx+1:]` with `__` and re-splits it inside the recursive call,
which yields the same part list). -/
def followParts : PyVal → List String → PyVal
  | obj, [] => followFinish obj
  | obj, part :: rest =>
    match getDisplay obj part with
    | some d => .vstr d
    | Option.none =>
      match getattr obj part with
      | .manager objs => .list (objs.map (fun o => followParts o rest))
      | obj2 => followParts obj2 rest

/-- Helper for `splitPath`: Python's `str.split('__')`, splitting at each
non-overlapping occurrence of the two-character separator, scanned left to
right; `acc` holds the (reversed) characters of the current segment. -/
def splitSegsAux : List Char → List Char → List String
  | [], acc => [String.mk acc.reverse]
  | '_' :: '_' :: rest, acc => String.mk acc.reverse :: splitSegsAux rest []
  | c :: rest, acc => splitSegsAux rest (c :: acc)

/-- `path.split('__') if path else []` (mapping.py line 11): the empty
string is falsy in Python, giving the empty part list. -/
def splitPath (path : String) : List String :=
  if path = "" then [] else splitSegsAux path.toList []

/-- `follow(obj, path)` (mapping.py lines 10-27). -/
def follow (obj : PyVal) (path : String) : PyVal :=
  followParts obj (splitPath path)

/-- `Indexable.get_id` (mapping.py lines 83-89): `str(obj.pk)`.  `obj.pk`
is the model's primary key; on a non-model the attribute access would
fail, modelled by `none`. -/
def get_id (obj : PyVal) : Option String :=
  match obj with
  | .model _ pk _ _ => some (toString pk)
  | _ => Option.none

/-- `Indexable.get_data` (mapping.py lines 91-100): one entry per field
name declared in the document schema (`cls._doc_type.mapping`), each value
produced by `follow(obj, name)`. -/
def get_data (schema : List String) (obj : PyVal) : List (String × PyVal) :=
  schema.map (fun name => (name, follow obj name))

/-- `rangeFrom start step n` is the list `[start, start+step, ...]` with
`n` elements: the consecutive values yielded by a Python `range` once its
length is fixed. -/
def rangeFrom (start step : Nat) : Nat → List Nat
  | 0 => []
  | n + 1 => start :: rangeFrom (start + step) step n

/-- The number of elements of Python's `range(start, stop, step)` for a
positive `step`: `ceil((stop - start) / step)`, clamped at zero (CPython
computes `(stop - start + step - 1) // step`; Nat subtraction does the
clamping). -/
def pyRangeLen (start stop step : Nat) : Nat :=
  (stop - start + step - 1) / step

/-- Python's `range(start, stop, step)` for a positive `step`. -/
def pyRange (start stop step : Nat) : List Nat :=
  rangeFrom start step (pyRangeLen start stop step)

/-- The half-open windows enumerated by the batch branch of
`Indexable.get_objects` (mapping.py lines 73-81): for each
`start in range(0, total, batch_size)` the slice
`[start : min(start + batch_size, total)]` is fetched. -/
def batchWindows (total batch_size : Nat) : List (Nat × Nat) :=
  (pyRange 0 total batch_size).map (fun start => (start, min (start + batch_size) total))

/-- The default batch size: `getattr(settings, 'SEEKER_BATCH_SIZE', 1000)`
(mapping.py line 76) when the setting is absent. -/
def defaultBatchSize : Nat := 1000

/-- The exact Django field classes that occur in the source
(`document_field`'s lookup table and `document_from_model`'s AutoField
test); `other` covers every further field class. -/
inductive FieldClass where
  | DateField
  | DateTimeField
  | IntegerField
  | AutoField
  | CharField
  | TextField
  | BooleanField
  | other : String → FieldClass
deriving DecidableEq

/-- An `elasticsearch_dsl` string field: `dsl.String(analyzer=...,
index=..., fields=...)`; absent keyword arguments are `none`. -/
structure DslString where
  analyzer : Option String
  index_mode : Option String
deriving DecidableEq

/-- An `elasticsearch_dsl` field value as produced by `document_field`:
`dsl.Date()`, `dsl.Long()`, or a string field with named subfields. -/
inductive DslField where
  | date
  | long
  | str : DslString → List (String × DslString) → DslField
deriving DecidableEq

/-- `document_field` (mapping.py lines 132-141): a dict keyed by the exact
field class (`defaults.get(field.__class__, s)` — no subclass matching),
defaulting to `dsl.String(analyzer='snowball',
fields={'raw': dsl.String(index='not_analyzed')})`. -/
def document_field (field : FieldClass) : DslField :=
  match field with
  | .DateField => .date
  | .DateTimeField => .date
  | .IntegerField => .long
  | _ => .str { analyzer := some "snowball", index_mode := Option.none }
           [("raw", { analyzer := Option.none, index_mode := some "not_analyzed" })]

/-- A declared Django model field: its name and its class. -/
structure DjangoFieldDecl where
  name : String
  cls : FieldClass
deriving DecidableEq

/-- The parts of `model_class._meta` used by `document_from_model`:
the concrete fields and the many-to-many fields. -/
structure ModelMeta where
  fields : List DjangoFieldDecl
  many_to_many : List DjangoFieldDecl
deriving DecidableEq

/-- `isinstance(f, models.AutoField)` (mapping.py line 166). -/
def isAutoField (f : DjangoFieldDecl) : Bool :=
  f.cls == FieldClass.AutoField

/-- Python dict assignment `m[k] = v` on an association list: overwrite in
place when the key is present, append otherwise (dict insertion order). -/
def dictSet (m : List (String × DslField)) (k : String) (v : DslField) :
    List (String × DslField) :=
  match m with
  | [] => [(k, v)]
  | (k2, v2) :: rest =>
    if k2 = k then (k2, v) :: rest else (k2, v2) :: dictSet rest k v

/-- The schema attributes collected by the loop of `document_from_model`
(mapping.py lines 165-167): for every field of
`model_class._meta.fields + model_class._meta.many_to_many` that is not an
`AutoField`, the dict entry `attrs[f.name] = field_factory(f)`. -/
def document_from_model_schema (meta : ModelMeta)
    (field_factory : DjangoFieldDecl → DslField) : List (String × DslField) :=
  (meta.fields ++ meta.many_to_many).foldl
    (fun attrs f => if isAutoField f then attrs else dictSet attrs f.name (field_factory f)) []

/-
registry.py.  A document class is modelled by the data `register`
inspects: `oid` is the Python object identity of the class object (the
list-membership test `doc_class in documents` compares classes, which is
identity for type objects — two structurally identical but distinct
classes differ in `oid`), `isIndexable` models
`issubclass(doc_class, Indexable)`, `isModelIndex` models
`issubclass(doc_class, ModelIndex)` (`ModelIndex` itself is imported by
registry.py but not defined under src/), `model_class` is the identity of
`doc_class.queryset().model`, and `doc_type_name` is
`doc_class._doc_type.name`.
-/

structure DocClass where
  oid : Nat
  isIndexable : Bool
  isModelIndex : Bool
  model_class : Nat
  doc_type_name : String
deriving DecidableEq

/-- The `app` argument of `register`: whether it is an `AppConfig`
instance, whether `apps.is_installed(app.name)` holds, and its `label`. -/
structure AppArg where
  isAppConfig : Bool
  installed : Bool
  label : String
deriving DecidableEq

/-- The four module-level tables of registry.py (lines 5-9).  The dicts
are association lists in insertion order. -/
structure RegistryState where
  documents : List DocClass
  model_documents : List (Nat × List DocClass)
  model_doc_types : List (String × Nat)
  app_documents : List (String × List DocClass)
deriving DecidableEq

/-- `d.setdefault(k, []).append(x)` on an association list. -/
def setdefaultAppendD (m : List (Nat × List DocClass)) (k : Nat) (x : DocClass) :
    List (Nat × List DocClass) :=
  match m with
  | [] => [(k, [x])]
  | (k2, v) :: rest =>
    if k2 = k then (k2, v ++ [x]) :: rest else (k2, v) :: setdefaultAppendD rest k x

/-- `d.setdefault(k, []).append(x)` for the string-keyed `app_documents`. -/
def setdefaultAppendS (m : List (String × List DocClass)) (k : String) (x : DocClass) :
    List (String × List DocClass) :=
  match m with
  | [] => [(k, [x])]
  | (k2, v) :: rest =>
    if k2 = k then (k2, v ++ [x]) :: rest else (k2, v) :: setdefaultAppendS rest k x

/-- `model_doc_types[name] = model_class`: dict assignment. -/
def dictSetN (m : List (String × Nat)) (k : String) (v : Nat) : List (String × Nat) :=
  match m with
  | [] => [(k, v)]
  | (k2, v2) :: rest =>
    if k2 = k then (k2, v) :: rest else (k2, v2) :: dictSetN rest k v

/-- The second assertion of `register` (registry.py lines 16-17): when an
`app` is passed, `isinstance(app, AppConfig) and apps.is_installed(app.name)`
must hold; `appAssertFails` is true exactly when that assert would raise. -/
def appAssertFails (app : Option AppArg) : Bool :=
  match app with
  | some a => !(a.isAppConfig && a.installed)
  | Option.none => false

/-- `register(doc_class, app=None)` (registry.py lines 13-31).  The two
`assert` statements run before any table is touched; an assertion failure
is `.error` carrying the table state at the moment of the raise.
`current_app` is the label held by the thread-local `current_app` when
set (`none` models the unset thread-local, whose `.label` access raises
and is swallowed by the bare `except`).  A successful call returns `.ok`
with the new state. -/
def register (st : RegistryState) (doc_class : DocClass) (app : Option AppArg)
    (current_app : Option String) : Except RegistryState RegistryState :=
  if !doc_class.isIndexable then .error st
  else if appAssertFails app then .error st
  else if st.documents.contains doc_class then .ok st
  else
    let documents2 := st.documents ++ [doc_class]
    let model_documents2 :=
      if doc_class.isModelIndex then
        setdefaultAppendD st.model_documents doc_class.model_class doc_class
      else st.model_documents
    let model_doc_types2 :=
      if doc_class.isModelIndex then
        dictSetN st.model_doc_types doc_class.doc_type_name doc_class.model_class
      else st.model_doc_types
    let appLabel : Option String :=
      match app with
      | some a => some a.label
      | Option.none => current_app
    let app_documents2 :=
      match appLabel with
      | some lbl => setdefaultAppendS st.app_documents lbl doc_class
      | Option.none => st.app_documents
    .ok { documents := documents2, model_documents := model_documents2,
          model_doc_types := model_doc_types2, app_documents := app_documents2 }

/-
Concrete fixtures (the Article scenario of the spec, and a record with a
display-valued field), used by the scenario theorem and the witnesses.
-/

/-- A tag record with name "a". -/
def tag1 : PyVal := .model "a" 1 [("name", .vstr "a")] []

/-- A tag record with name "b". -/
def tag2 : PyVal := .model "b" 2 [("name", .vstr "b")] []

/-- The Article scenario record: id=5, title="Hello", two tags. -/
def article : PyVal :=
  .model "Hello" 5 [("title", .vstr "Hello"), ("tags", .manager [tag1, tag2])] []

/-- A record whose field `status` has a `get_status_display` method
returning "Active", and whose string representation is "rec". -/
def statusRec : PyVal := .model "rec" 1 [] [("status", "Active")]

/-- `follow` on a `None` current value stays `None` for the rest of the
path: `getattr(None, part, None)` is `None`, no display method exists,
and the final conversion leaves `None` unchanged. -/
theorem followParts_none (parts : List String) :
    followParts PyVal.none parts = PyVal.none := by
  induction parts with
  | nil => rfl
  | cons part rest ih => simpa [followParts, getDisplay, getattr] using ih

/-- C2: when segment `a` of the path reaches a to-many relation (a
`Manager`) holding the related records `objs`, and `a` is not
display-valued, `follow` fans out: it returns the list with exactly one
entry per related record, in the relation's iteration order, each entry
being the resolution of the remaining path against that record.  Any path
crossing a to-many relation is therefore collection-valued. -/
theorem follow_fanout (r : PyVal) (a : String) (objs : List PyVal) (rest : List String)
    (h1 : getDisplay r a = Option.none) (h2 : getattr r a = PyVal.manager objs) :
    followParts r (a :: rest) = PyVal.list (objs.map (fun o => followParts o rest)) ∧
      (objs.map (fun o => followParts o rest)).length = objs.length := by
  constructor
  · simp [followParts, h1, h2]
  · exact List.length_map objs _

/-- Witness for C2: the Article record's `tags` relation holds two tag
records, and path `tags__name` yields their two names in order. -/
theorem follow_fanout_witness :
    followParts article ["tags", "name"] =
        PyVal.list ([tag1, tag2].map (fun o => followParts o ["name"])) ∧
      ([tag1, tag2].map (fun o => followParts o ["name"])).length = [tag1, tag2].length :=
  follow_fanout article "tags" [tag1, tag2] ["name"] rfl rfl

/-- C3: when the current record exposes `get_<s>_display` for segment `s`,
`follow` returns that display value at once and discards every remaining
path segment, whatever they are: display-valued segments are terminal at
any depth. -/
theorem follow_display_terminal (r : PyVal) (s d : String) (rest : List String)
    (h : getDisplay r s = some d) :
    followParts r (s :: rest) = PyVal.vstr d := by
  simp [followParts, h]

/-- Witness for C3: `statusRec` has a display method for `status`, and the
path `status__anything` returns "Active", ignoring `anything`. -/
theorem follow_display_terminal_witness :
    followParts statusRec ["status", "anything"] = PyVal.vstr "Active" :=
  follow_display_terminal statusRec "status" "Active" ["anything"] rfl

/-- C4: `follow` is a total function (the embedding's `followParts` never
fails), and a segment that does not resolve to a known attribute turns the
current value into `None`, after which every remaining segment keeps
operating on `None` and the overall result degrades to `None`. -/
theorem follow_missing_degrades :
    (∀ parts : List String, followParts PyVal.none parts = PyVal.none) ∧
      (∀ (obj : PyVal) (part : String) (rest : List String),
        getDisplay obj part = Option.none → getattr obj part = PyVal.none →
          followParts obj (part :: rest) = PyVal.none) := by
  refine ⟨followParts_none, fun obj part rest h1 h2 => ?_⟩
  simp [followParts, h1, h2, followParts_none]

/-- Witness for C4: the Article record has no attribute `missing`, so the
path `missing__x` resolves to `None` without failing. -/
theorem follow_missing_degrades_witness :
    followParts article ["missing", "x"] = PyVal.none :=
  follow_missing_degrades.2 article "missing" ["x"] rfl rfl

/-- C5: the Article scenario.  With schema fields `title` and
`tags__name`, `get_data` returns exactly one entry per declared schema
field, with the values computed by `follow` — here
title ↦ "Hello" and tags__name ↦ ["a", "b"] — and `get_id` renders the
primary key 5 as the string "5". -/
theorem article_scenario :
    get_data ["title", "tags__name"] article =
        [("title", PyVal.vstr "Hello"),
         ("tags__name", PyVal.list [PyVal.vstr "a", PyVal.vstr "b"])] ∧
      get_id article = some "5" :=
  ⟨rfl, rfl⟩

/-- C7 counterexample: `statusRec` has a display-value capability (for
segment `status`), yet `follow` on the empty path returns the string form
"rec", not the display value "Active": the empty path never consults
display capabilities, contradicting the claim as stated. -/
theorem follow_empty_path_counterexample :
    getDisplay statusRec "status" = some "Active" ∧
      follow statusRec "" = PyVal.vstr "rec" ∧
      follow statusRec "" ≠ PyVal.vstr "Active" := by
  refine ⟨rfl, rfl, fun h => ?_⟩
  rw [show follow statusRec "" = PyVal.vstr "rec" from rfl] at h
  injection h with h2
  exact absurd h2 (by decide)

/-- C7 (amended): `follow` on the empty path returns the record converted
to its string form when it is a relational record — display capabilities
are never consulted — and returns any non-model value unchanged. -/
theorem follow_empty_path :
    (∀ (s : String) (pk : Int) (attrs : List (String × PyVal))
        (displays : List (String × String)),
      follow (PyVal.model s pk attrs displays) "" = PyVal.vstr s) ∧
      (∀ v : PyVal, isModel v = false → follow v "" = v) := by
  refine ⟨fun s pk attrs displays => rfl, fun v hv => ?_⟩
  cases v <;> simp_all [follow, splitPath, followParts, followFinish, isModel]

/-- Witness for C7 (amended): a bare integer value is returned unchanged
by the empty path. -/
theorem follow_empty_path_witness :
    follow (PyVal.vint 3) "" = PyVal.vint 3 :=
  follow_empty_path.2 (PyVal.vint 3) rfl

/-- An Indexable document class fixture. -/
def doc0 : DocClass :=
  { oid := 0, isIndexable := true, isModelIndex := false, model_class := 0,
    doc_type_name := "doc" }

/-- A class that is not an Indexable subclass. -/
def docBad : DocClass :=
  { oid := 1, isIndexable := false, isModelIndex := false, model_class := 0,
    doc_type_name := "bad" }

/-- The empty registry (module import state, registry.py lines 5-9). -/
def st0 : RegistryState :=
  { documents := [], model_documents := [], model_doc_types := [], app_documents := [] }

/-- The registry after registering `doc0` with no app. -/
def st1 : RegistryState :=
  { documents := [doc0], model_documents := [], model_doc_types := [], app_documents := [] }

/-- C6: registering the same document class object a second time is
silently ignored: if a call to `register` succeeded and produced the state
`st2`, re-running `register` with the identical class object on `st2`
returns `st2` itself unchanged — same flat `documents` list (hence the
same length) and every other registry table identical.  The duplicate test
is `doc_class in documents`, which compares class objects by identity;
`DocClass.oid` carries that identity. -/
theorem register_idempotent (st st2 : RegistryState) (doc : DocClass)
    (app : Option AppArg) (cur : Option String)
    (h : register st doc app cur = .ok st2) :
    register st2 doc app cur = .ok st2 := by
  unfold register at h ⊢
  cases hI : doc.isIndexable with
  | false => rw [hI] at h; simp at h
  | true =>
    rw [hI] at h
    simp only [Bool.not_true, Bool.false_eq_true, if_false] at h ⊢
    cases hA : appAssertFails app with
    | true => rw [hA] at h; simp at h
    | false =>
      rw [hA] at h
      simp only [Bool.false_eq_true, if_false] at h ⊢
      by_cases h3 : st.documents.contains doc = true
      · rw [if_pos h3] at h
        cases h
        have hmem : doc ∈ st.documents := by simpa using h3
        simp [hmem]
      · rw [if_neg h3] at h
        cases h
        simp

/-- Witness for C6: registering `doc0` into the empty registry yields
`st1`; registering `doc0` again leaves `st1` unchanged. -/
theorem register_idempotent_witness :
    register st1 doc0 Option.none Option.none = .ok st1 :=
  register_idempotent st0 st1 doc0 Option.none Option.none rfl

/-- C9: the two assertions of `register` run before any table is touched,
so a call that fails a precondition (the class is not an Indexable
subclass, or an app is given that is not an installed AppConfig) raises
with `documents`, `model_documents`, `model_doc_types` and `app_documents`
all exactly as they were on entry (the `.error` carries the unchanged
entry state). -/
theorem register_assert_atomic (st : RegistryState) (doc : DocClass)
    (app : Option AppArg) (cur : Option String)
    (h : doc.isIndexable = false ∨
      ∃ a, app = some a ∧ (a.isAppConfig && a.installed) = false) :
    register st doc app cur = .error st := by
  unfold register
  rcases h with h1 | ⟨a, ha, h2⟩
  · simp [h1]
  · subst ha
    by_cases h1 : doc.isIndexable = false
    · simp [h1]
    · simp [appAssertFails, h1, h2]

/-- Witness for C9: registering the non-Indexable `docBad` on the empty
registry fails the first assertion and leaves the registry empty. -/
theorem register_assert_atomic_witness :
    register st0 docBad Option.none Option.none = .error st0 :=
  register_assert_atomic st0 docBad Option.none Option.none (Or.inl rfl)

/-- C8: `document_field` implements a fixed lookup table — DateField and
DateTimeField map to the search date type, IntegerField to the long type —
and every other field class falls back to snowball-analyzed text carrying
a raw not-analyzed sibling subfield; it is deterministic (equal
descriptors give equal results) and, being a plain function of its
argument in this embedding, mutates no state. -/
theorem document_field_table :
    document_field FieldClass.DateField = DslField.date ∧
      document_field FieldClass.DateTimeField = DslField.date ∧
      document_field FieldClass.IntegerField = DslField.long ∧
      (∀ f : FieldClass, f ≠ FieldClass.DateField → f ≠ FieldClass.DateTimeField →
        f ≠ FieldClass.IntegerField →
        document_field f =
          DslField.str { analyzer := some "snowball", index_mode := Option.none }
            [("raw", { analyzer := Option.none, index_mode := some "not_analyzed" })]) ∧
      (∀ f g : FieldClass, f = g → document_field f = document_field g) := by
  refine ⟨rfl, rfl, rfl, fun f h1 h2 h3 => ?_, fun f g h => by rw [h]⟩
  cases f <;> simp_all [document_field]

/-- Witness for C8: AutoField is not in the lookup table (the dict lookup
is by exact class), so it gets the analyzed-text-with-raw fallback. -/
theorem document_field_table_witness :
    document_field FieldClass.AutoField =
      DslField.str { analyzer := some "snowball", index_mode := Option.none }
        [("raw", { analyzer := Option.none, index_mode := some "not_analyzed" })] :=
  document_field_table.2.2.2.1 FieldClass.AutoField (by decide) (by decide) (by decide)

/-- Key membership after a dict assignment: the keys are those already
present plus the assigned key. -/
theorem mem_keys_dictSet (m : List (String × DslField)) (k : String) (v : DslField)
    (k2 : String) :
    k2 ∈ (dictSet m k v).map Prod.fst ↔ k2 ∈ m.map Prod.fst ∨ k2 = k := by
  induction m with
  | nil => simp [dictSet]
  | cons p rest ih =>
    rcases p with ⟨k3, v3⟩
    by_cases hk : k3 = k
    · subst hk
      simp [dictSet]
      tauto
    · simp [dictSet, hk, ih]
      tauto

/-- Dict assignment preserves key uniqueness. -/
theorem keys_nodup_dictSet (m : List (String × DslField)) (k : String) (v : DslField)
    (h : (m.map Prod.fst).Nodup) : ((dictSet m k v).map Prod.fst).Nodup := by
  induction m with
  | nil => simp [dictSet]
  | cons p rest ih =>
    rcases p with ⟨k3, v3⟩
    simp only [List.map_cons, List.nodup_cons] at h
    by_cases hk : k3 = k
    · subst hk
      simp [dictSet, List.nodup_cons, h.1, h.2]
    · simp only [dictSet, hk, if_false, List.map_cons, List.nodup_cons]
      refine ⟨fun hc => ?_, ih h.2⟩
      rw [mem_keys_dictSet] at hc
      rcases hc with hc | hc
      · exact h.1 hc
      · exact hk hc

/-- Key membership in the schema dict built by the loop of
`document_from_model`, for any starting accumulator. -/
theorem mem_keys_schema_foldl (ff : DjangoFieldDecl → DslField) (l : List DjangoFieldDecl)
    (acc : List (String × DslField)) (k : String) :
    (k ∈ ((l.foldl
        (fun attrs f => if isAutoField f then attrs else dictSet attrs f.name (ff f))
        acc).map Prod.fst)) ↔
      k ∈ acc.map Prod.fst ∨ ∃ f ∈ l, isAutoField f = false ∧ f.name = k := by
  induction l generalizing acc with
  | nil => simp
  | cons f rest ih =>
    simp only [List.foldl_cons]
    by_cases hf : isAutoField f = true
    · rw [if_pos hf, ih]
      simp only [List.mem_cons]
      constructor
      · rintro (hacc | ⟨g, hg, hga, hgk⟩)
        · exact Or.inl hacc
        · exact Or.inr ⟨g, Or.inr hg, hga, hgk⟩
      · rintro (hacc | ⟨g, hgmem, hga, hgk⟩)
        · exact Or.inl hacc
        · rcases hgmem with rfl | hg
          · rw [hf] at hga; cases hga
          · exact Or.inr ⟨g, hg, hga, hgk⟩
    · rw [if_neg hf, ih, mem_keys_dictSet]
      simp only [List.mem_cons, Bool.not_eq_true] at hf ⊢
      constructor
      · rintro ((hacc | hk) | ⟨g, hg, hga, hgk⟩)
        · exact Or.inl hacc
        · exact Or.inr ⟨f, Or.inl rfl, hf, hk.symm⟩
        · exact Or.inr ⟨g, Or.inr hg, hga, hgk⟩
      · rintro (hacc | ⟨g, hgmem, hga, hgk⟩)
        · exact Or.inl (Or.inl hacc)
        · rcases hgmem with rfl | hg
          · exact Or.inl (Or.inr hgk.symm)
          · exact Or.inr ⟨g, hg, hga, hgk⟩

/-- The schema dict built by the loop of `document_from_model` has unique
keys, for any starting accumulator with unique keys. -/
theorem keys_nodup_schema_foldl (ff : DjangoFieldDecl → DslField) (l : List DjangoFieldDecl)
    (acc : List (String × DslField)) (h : (acc.map Prod.fst).Nodup) :
    (((l.foldl
        (fun attrs f => if isAutoField f then attrs else dictSet attrs f.name (ff f))
        acc).map Prod.fst)).Nodup := by
  induction l generalizing acc with
  | nil => simpa
  | cons f rest ih =>
    simp only [List.foldl_cons]
    by_cases hf : isAutoField f = true
    · rw [if_pos hf]; exact ih acc h
    · rw [if_neg hf]; exact ih _ (keys_nodup_dictSet acc f.name (ff f) h)

/-- C10: the generated document class carries one schema attribute for
every concrete (`_meta.fields`) and many-to-many (`_meta.many_to_many`)
model field except AutoField fields: a name is a schema key exactly when
some non-AutoField field bears it, the keys are free of duplicates, and an
auto field whose name is borne by no non-auto field (in particular the
auto primary key) is never a schema key — even though `get_id` still
renders the primary key of every model instance. -/
theorem document_from_model_schema_keys (meta : ModelMeta)
    (ff : DjangoFieldDecl → DslField) :
    (∀ k, k ∈ (document_from_model_schema meta ff).map Prod.fst ↔
        ∃ f ∈ meta.fields ++ meta.many_to_many, isAutoField f = false ∧ f.name = k) ∧
      ((document_from_model_schema meta ff).map Prod.fst).Nodup ∧
      (∀ f ∈ meta.fields ++ meta.many_to_many, isAutoField f = true →
        (∀ g ∈ meta.fields ++ meta.many_to_many, g.name = f.name → isAutoField g = true) →
        f.name ∉ (document_from_model_schema meta ff).map Prod.fst) ∧
      (∀ (s : String) (pk : Int) (attrs : List (String × PyVal))
          (displays : List (String × String)),
        get_id (PyVal.model s pk attrs displays) = some (toString pk)) := by
  refine ⟨fun k => ?_, ?_, fun f hf hauto huniq hmem => ?_, fun s pk attrs displays => rfl⟩
  · rw [document_from_model_schema, mem_keys_schema_foldl]
    simp
  · exact keys_nodup_schema_foldl ff _ [] (by simp)
  · rw [document_from_model_schema, mem_keys_schema_foldl] at hmem
    rcases hmem with hacc | ⟨g, hg, hga, hgk⟩
    · simp at hacc
    · rw [huniq g hg hgk] at hga
      cases hga

/-- Witness for C10: a model with auto pk `id`, a char field `title` and a
many-to-many field `tags` derives a schema without `id`. -/
theorem document_from_model_schema_keys_witness :
    "id" ∉ (document_from_model_schema
        { fields := [{ name := "id", cls := FieldClass.AutoField },
                     { name := "title", cls := FieldClass.CharField }],
          many_to_many := [{ name := "tags", cls := FieldClass.other "ManyToManyField" }] }
        (fun f => document_field f.cls)).map Prod.fst :=
  (document_from_model_schema_keys _ (fun f => document_field f.cls)).2.2.1
    { name := "id", cls := FieldClass.AutoField } (by decide) (by decide) (by decide)

/-- The elements of `rangeFrom a step n` are `a + i * step` for `i < n`. -/
theorem mem_rangeFrom (step : Nat) : ∀ (n a s : Nat),
    s ∈ rangeFrom a step n ↔ ∃ i, i < n ∧ s = a + i * step := by
  intro n
  induction n with
  | zero => intro a s; simp [rangeFrom]
  | succ n ih =>
    intro a s
    simp only [rangeFrom, List.mem_cons, ih]
    constructor
    · rintro (rfl | ⟨i, hi, rfl⟩)
      · exact ⟨0, Nat.succ_pos n, by ring⟩
      · exact ⟨i + 1, Nat.succ_lt_succ hi, by ring⟩
    · rintro ⟨i, hi, rfl⟩
      cases i with
      | zero => exact Or.inl (by ring)
      | succ i => exact Or.inr ⟨i, Nat.lt_of_succ_lt_succ hi, by ring⟩

/-- `rangeFrom` with one more element appends `a + n * step` at the end. -/
theorem rangeFrom_concat (step : Nat) : ∀ (n a : Nat),
    rangeFrom a step (n + 1) = rangeFrom a step n ++ [a + n * step] := by
  intro n
  induction n with
  | zero => intro a; simp [rangeFrom]
  | succ n ih =>
    intro a
    have h1 : rangeFrom a step (n + 2) = a :: rangeFrom (a + step) step (n + 1) := rfl
    rw [h1, ih (a + step)]
    have h2 : a + step + n * step = a + (n + 1) * step := by ring
    rw [h2]
    rfl

/-- The length computation of `range(0, T, B)` for positive `B`: index `i`
is in range exactly when the window start `i * B` is below the total. -/
theorem lt_pyRangeLen (B : Nat) (hB : 0 < B) (T i : Nat) :
    i < pyRangeLen 0 T B ↔ i * B < T := by
  unfold pyRangeLen
  rw [show (i < (T - 0 + B - 1) / B) = (i + 1 ≤ (T - 0 + B - 1) / B) from rfl,
    Nat.le_div_iff_mul_le hB,
    show (i + 1) * B = i * B + B from by ring]
  omega

/-- Characterization of the batch windows: they are exactly the pairs
`(i * B, min (i * B + B) T)` for the indices `i` with `i * B < T`. -/
theorem mem_batchWindows (T B : Nat) (hB : 0 < B) (w : Nat × Nat) :
    w ∈ batchWindows T B ↔ ∃ i, i * B < T ∧ w = (i * B, min (i * B + B) T) := by
  unfold batchWindows pyRange
  rw [List.mem_map]
  constructor
  · rintro ⟨s, hs, rfl⟩
    rw [mem_rangeFrom] at hs
    rcases hs with ⟨i, hi, rfl⟩
    rw [lt_pyRangeLen B hB] at hi
    exact ⟨i, hi, by simp⟩
  · rintro ⟨i, hi, rfl⟩
    refine ⟨i * B, ?_, by simp⟩
    rw [mem_rangeFrom]
    exact ⟨i, by rw [lt_pyRangeLen B hB]; exact hi, by simp⟩

/-- Length of a final window `[i*B, T)` with `i*B < T ≤ i*B + B`:
`T mod B`, or `B` when `B` divides `T`. -/
theorem last_window_len (B i T : Nat) (hB : 0 < B) (h1 : i * B < T)
    (h2 : T ≤ i * B + B) :
    T - i * B = if T % B = 0 then B else T % B := by
  have hc : B * i = i * B := Nat.mul_comm B i
  by_cases hT : T = i * B + B
  · have hmod : T % B = 0 := by
      rw [hT, show i * B + B = (i + 1) * B from by ring]
      simp [Nat.mul_mod_left]
    rw [hmod, if_pos rfl]
    omega
  · have hlt : T < (i + 1) * B := by
      rw [show (i + 1) * B = i * B + B from by ring]
      omega
    have hq : T / B = i := Nat.div_eq_of_lt_le (Nat.le_of_lt h1) hlt
    have hdm := Nat.div_add_mod T B
    rw [hq] at hdm
    have hpos : ¬ T % B = 0 := by omega
    rw [if_neg hpos]
    omega

/-- When there is at least one record, the window list ends with a window
that reaches exactly `T` and starts within `B` of it. -/
theorem batchWindows_concat (T B : Nat) (hB : 0 < B) (hT : 0 < T) :
    ∃ l m, batchWindows T B = l ++ [(m * B, T)] ∧ m * B < T ∧ T ≤ m * B + B := by
  obtain ⟨m, hm⟩ : ∃ m, pyRangeLen 0 T B = m + 1 := by
    have h0 : (0 : Nat) * B < T := by simpa using hT
    have hpos := (lt_pyRangeLen B hB T 0).mpr h0
    exact ⟨pyRangeLen 0 T B - 1, by omega⟩
  have hmB : m * B < T := (lt_pyRangeLen B hB T m).mp (by omega)
  have hTm : T ≤ m * B + B := by
    have hnot : ¬ ((m + 1) * B < T) := by
      intro hcon
      have := (lt_pyRangeLen B hB T (m + 1)).mpr hcon
      omega
    have hd : (m + 1) * B = m * B + B := by ring
    omega
  refine ⟨(rangeFrom 0 B m).map (fun start => (start, min (start + B) T)), m, ?_, hmB, hTm⟩
  unfold batchWindows pyRange
  rw [hm, rangeFrom_concat, List.map_append]
  simp [min_eq_right hTm]

/-- C1: batch-mode enumeration in `Indexable.get_objects` (cursor=False)
produces the half-open windows `[start, min(start+B, T))`; every index
`x < T` lies in at least one window and never in two different ones (no
gaps, no overlaps, union exactly `[0, T)`); when `T > 0` the final window
ends exactly at `T` and has length `T mod B`, or `B` when `B` divides `T`;
and `T = 2500`, `B = 1000` yields exactly the three windows `[0,1000)`,
`[1000,2000)`, `[2000,2500)`. -/
theorem get_objects_windowing (T B : Nat) (hB : 0 < B) :
    (∀ w ∈ batchWindows T B, w.2 = min (w.1 + B) T) ∧
      (∀ x, x < T ↔ ∃ w ∈ batchWindows T B, w.1 ≤ x ∧ x < w.2) ∧
      (∀ w1 ∈ batchWindows T B, ∀ w2 ∈ batchWindows T B, ∀ x,
        w1.1 ≤ x → x < w1.2 → w2.1 ≤ x → x < w2.2 → w1 = w2) ∧
      (0 < T → ∃ l s, batchWindows T B = l ++ [(s, T)] ∧
        T - s = if T % B = 0 then B else T % B) ∧
      batchWindows 2500 1000 = [(0, 1000), (1000, 2000), (2000, 2500)] := by
  refine ⟨fun w hw => ?_, fun x => ⟨fun hx => ?_, fun hx => ?_⟩, ?_, fun hT => ?_, by decide⟩
  · rw [mem_batchWindows T B hB] at hw
    rcases hw with ⟨i, hi, rfl⟩
    rfl
  · refine ⟨(x / B * B, min (x / B * B + B) T), ?_, Nat.div_mul_le_self x B, ?_⟩
    · rw [mem_batchWindows T B hB]
      exact ⟨x / B, Nat.lt_of_le_of_lt (Nat.div_mul_le_self x B) hx, rfl⟩
    · exact lt_min (Nat.lt_div_mul_add hB) hx
  · rcases hx with ⟨w, hw, hx1, hx2⟩
    rw [mem_batchWindows T B hB] at hw
    rcases hw with ⟨i, hi, rfl⟩
    exact Nat.lt_of_lt_of_le hx2 (min_le_right _ _)
  · intro w1 hw1 w2 hw2 x ha1 hb1 ha2 hb2
    rw [mem_batchWindows T B hB] at hw1 hw2
    rcases hw1 with ⟨i, hi, rfl⟩
    rcases hw2 with ⟨j, hj, rfl⟩
    have hxi : x < (i + 1) * B := by
      have := Nat.lt_of_lt_of_le hb1 (min_le_left _ _)
      rw [show (i + 1) * B = i * B + B from by ring]
      omega
    have hxj : x < (j + 1) * B := by
      have := Nat.lt_of_lt_of_le hb2 (min_le_left _ _)
      rw [show (j + 1) * B = j * B + B from by ring]
      omega
    have hi2 : x / B = i := Nat.div_eq_of_lt_le ha1 hxi
    have hj2 : x / B = j := Nat.div_eq_of_lt_le ha2 hxj
    have hij : i = j := by omega
    rw [hij]
  · rcases batchWindows_concat T B hB hT with ⟨l, m, heq, h1, h2⟩
    exact ⟨l, m * B, heq, last_window_len B m T hB h1 h2⟩

/-- Witness for C1 at the spec's scenario input T=2500, B=1000. -/
theorem get_objects_windowing_witness :
    (∀ w ∈ batchWindows 2500 1000, w.2 = min (w.1 + 1000) 2500) ∧
      (∀ x, x < 2500 ↔ ∃ w ∈ batchWindows 2500 1000, w.1 ≤ x ∧ x < w.2) ∧
      (∀ w1 ∈ batchWindows 2500 1000, ∀ w2 ∈ batchWindows 2500 1000, ∀ x,
        w1.1 ≤ x → x < w1.2 → w2.1 ≤ x → x < w2.2 → w1 = w2) ∧
      (0 < 2500 → ∃ l s, batchWindows 2500 1000 = l ++ [(s, 2500)] ∧
        2500 - s = if 2500 % 1000 = 0 then 1000 else 2500 % 1000) ∧
      batchWindows 2500 1000 = [(0, 1000), (1000, 2000), (2000, 2500)] :=
  get_objects_windowing 2500 1000 (by decide)

end Seeker

